import Mathlib

/-!
Verification development for the Stock-Market-RAG repository.

This file gives a shallow embedding, in Lean 4, of the deterministic core of
the repository: the retrieval filter and response building of `app.py`
(`search_documents`, `generate_answer`, `run_statistical_analysis`,
`query_stocks`), the shared fact-extraction pipeline of `query_engine.py`
(`simple_generator` has the same sentence/keyword logic as
`app.py:generate_answer`), and the numeric analysis of
`statistical_analysis_module.py` (`extract_prices`, `analyze_documents`).

Modelling conventions:
* Python strings are `List Char`; Python floats are idealised as `ℚ`
  (exact rational arithmetic; CPython's binary floats are the only
  divergence, and none of the verified claims depends on a value that a
  53-bit float would change).  `statistics.stdev` takes a real square
  root, so statements about it are phrased over `ℝ`.
* Python's `round(x, n)` rounds half to even; `rheQ` implements that rule
  exactly on `ℚ`.  (For 1- and 2-decimal rounding a tie is never a dyadic
  rational, hence never an actual float value in the running program, so
  the tie rule is unobservable there; we still model it.)
* The external vector index and embedder are collaborators: functions that
  consume their reply take the reply (documents, metadatas, distances) as
  an argument.  The `try/except` fallback re-query in `search_documents`
  is part of that external boundary and is not modelled.
* Recursive scanners over strings use an explicit fuel argument equal to
  the input length; every step consumes at least one character, so the
  fuel never runs out.  This keeps every definition structurally
  recursive and kernel-computable.
-/

/-! ### Characters and basic string operations -/

/-- Python `\s` on the ASCII range: the six whitespace characters. -/
def isSpaceCh (c : Char) : Bool :=
  c == ' ' || c == '\t' || c == '\n' || c == '\r' || c == '\x0b' || c == '\x0c'

/-- The sentence-terminal punctuation of the lookbehind `(?<=[.!?])`. -/
def isSentPunct (c : Char) : Bool :=
  c == '.' || c == '!' || c == '?'

/-- Python `\d` on ASCII. -/
def isDigitCh (c : Char) : Bool :=
  c.isDigit

/-- Python `\w` on the ASCII range: letters, digits, underscore. -/
def isWordCh (c : Char) : Bool :=
  c.isAlphanum || c == '_'

/-- Python `str.lower()` on the ASCII range. -/
def toLowerL (cs : List Char) : List Char :=
  cs.map Char.toLower

/-- Python `str.strip()`: drop leading and trailing whitespace. -/
def stripL (cs : List Char) : List Char :=
  ((cs.dropWhile isSpaceCh).reverse.dropWhile isSpaceCh).reverse

/-- Does the second list occur at the head of the first? -/
def startsWithL : List Char → List Char → Bool
  | _, [] => true
  | [], _ :: _ => false
  | a :: as, b :: bs => a == b && startsWithL as bs

/-- Python's substring test `pat in hay`. -/
def containsSub : List Char → List Char → Bool
  | [], pat => pat.isEmpty
  | a :: as, pat => startsWithL (a :: as) pat || containsSub as pat

/-! ### Sentence splitting: `re.split(r'(?<=[.!?])\s+', doc)`

The regex splits at every maximal whitespace run whose preceding character
is `.`, `!` or `?`.  `goSplit` scans left to right keeping the reversed
current piece in `acc`; its head is the previously consumed character, which
is exactly what the lookbehind inspects. -/

/-- Scanner for the sentence-split regex.  Fuel is the input length. -/
def goSplit : ℕ → List Char → List Char → List (List Char)
  | 0, _, acc => [acc.reverse]
  | _ + 1, [], acc => [acc.reverse]
  | fuel + 1, c :: rest, acc =>
    match acc with
    | [] => goSplit fuel rest [c]
    | p :: _ =>
      if isSpaceCh c && isSentPunct p then
        acc.reverse :: goSplit fuel (rest.dropWhile isSpaceCh) []
      else
        goSplit fuel rest (c :: acc)

/-- `re.split(r'(?<=[.!?])\s+', cs)` — app.py line 127 / query_engine.py line 79. -/
def splitSentences (cs : List Char) : List (List Char) :=
  goSplit cs.length cs []

/-! ### Question keywords: `re.findall(r'\b\w{4,}\b', question_lower)`

With greedy matching and word boundaries, the matches of `\b\w{4,}\b` are
exactly the maximal word-character runs of length at least four. -/

/-- Maximal word-character runs of a string.  Fuel is the input length. -/
def wordRunsF : ℕ → List Char → List (List Char)
  | 0, _ => []
  | _ + 1, [] => []
  | fuel + 1, c :: cs =>
    if isWordCh c then
      (c :: cs.takeWhile isWordCh) :: wordRunsF fuel (cs.dropWhile isWordCh)
    else
      wordRunsF fuel cs

/-- Maximal word-character runs of a string. -/
def wordRuns (cs : List Char) : List (List Char) :=
  wordRunsF cs.length cs

/-- `re.findall(r'\b\w{4,}\b', question.lower())` — app.py line 130. -/
def questionKeywords (question : List Char) : List (List Char) :=
  (wordRuns (toLowerL question)).filter fun w => 4 ≤ w.length

/-! ### Fact extraction (app.py `generate_answer`, lines 122-150;
identical logic in query_engine.py `simple_generator`, lines 70-112) -/

/-- `sum(1 for kw in question_keywords if kw in sent_lower)` — app.py line 131. -/
def keepCount (kws : List (List Char)) (sentence : List Char) : ℕ :=
  kws.countP fun kw => containsSub (toLowerL sentence) kw

/-- The facts one document contributes: its sentences that match at least
one keyword and are longer than 30 characters, each stripped
(app.py lines 127-133). -/
def sentenceFacts (kws : List (List Char)) (doc : List Char) : List (List Char) :=
  (splitSentences (stripL doc)).filterMap fun s =>
    if 1 ≤ keepCount kws s ∧ 30 < s.length then some (stripL s) else none

/-- The `extracted_facts` list accumulated over all documents in order
(app.py lines 123-133). -/
def extractedFacts (question : List Char) (docs : List (List Char)) : List (List Char) :=
  docs.foldl (fun acc d => acc ++ sentenceFacts (questionKeywords question) d) []

/-- All sentences of all documents, in document order (used to state the
keep-iff characterisation of the extraction filter). -/
def allSentences (docs : List (List Char)) : List (List Char) :=
  (docs.map fun d => splitSentences (stripL d)).foldr (fun a b => a ++ b) []

/-- The `seen`-set deduplication loop of app.py lines 140-145: keep the
first occurrence of each fact, in order. -/
def dedupeFS (seen : List (List Char)) : List (List Char) → List (List Char)
  | [] => []
  | f :: fs => if f ∈ seen then dedupeFS seen fs else f :: dedupeFS (f :: seen) fs

/-- `top_facts = unique_facts[:5]` — app.py line 146. -/
def topFacts (question : List Char) (docs : List (List Char)) : List (List Char) :=
  (dedupeFS [] (extractedFacts question docs)).take 5

/-- The fallback of app.py lines 148-150: of the first three sentences of
the first document, those longer than 30 characters, stripped. -/
def fallbackFacts (docs : List (List Char)) : List (List Char) :=
  match docs with
  | [] => []
  | d :: _ =>
    ((splitSentences (stripL d)).take 3).filterMap fun s =>
      if 30 < s.length then some (stripL s) else none

/-- The fact list `generate_answer` renders: `top_facts`, replaced by the
fallback when empty (app.py lines 146-150). -/
def finalFacts (question : List Char) (docs : List (List Char)) : List (List Char) :=
  if topFacts question docs = [] then fallbackFacts docs else topFacts question docs

/-! ### Number extraction:
`re.findall(r"\d{1,3}(?:,\d{3})*(?:\.\d+)?", text)`
(statistical_analysis_module.py lines 6-8)

A match starts at a digit: `\d{1,3}` takes at most three digits of the
maximal digit run (the remaining digits stay in the input, to be matched
later), then `(?:,\d{3})*` greedily takes comma groups of exactly three
digits, then `(?:\.\d+)?` takes a dot followed by a maximal nonempty digit
run if present.  Both optional groups never force backtracking into
`\d{1,3}` because everything after it is optional. -/

/-- Greedy `(?:,\d{3})*`: returns (consumed characters, rest). -/
def commaGroups : List Char → List Char × List Char
  | ',' :: a :: b :: c :: r =>
    if isDigitCh a && isDigitCh b && isDigitCh c then
      let pr := commaGroups r
      (',' :: a :: b :: c :: pr.1, pr.2)
    else
      ([], ',' :: a :: b :: c :: r)
  | l => ([], l)

/-- Greedy `(?:\.\d+)?`: returns (consumed characters, rest). -/
def fracPart : List Char → List Char × List Char
  | '.' :: r =>
    if (r.takeWhile isDigitCh).isEmpty then
      ([], '.' :: r)
    else
      ('.' :: r.takeWhile isDigitCh, r.dropWhile isDigitCh)
  | l => ([], l)

/-- The token matched at a position whose head is a digit. -/
def munchTok (cs : List Char) : List Char :=
  let ds := cs.takeWhile isDigitCh
  let mid := ds.drop 3 ++ cs.dropWhile isDigitCh
  let cg := commaGroups mid
  ds.take 3 ++ cg.1 ++ (fracPart cg.2).1

/-- The input remaining after the token matched at a digit position. -/
def munchRest (cs : List Char) : List Char :=
  let ds := cs.takeWhile isDigitCh
  (fracPart (commaGroups (ds.drop 3 ++ cs.dropWhile isDigitCh)).2).2

/-- `re.findall` scanner for the number pattern.  Fuel is the input
length; each step consumes at least one character. -/
def findNumsF : ℕ → List Char → List (List Char)
  | 0, _ => []
  | _ + 1, [] => []
  | fuel + 1, c :: cs =>
    if isDigitCh c then
      munchTok (c :: cs) :: findNumsF fuel (munchRest (c :: cs))
    else
      findNumsF fuel cs

/-- All matches of the number regex, left to right. -/
def findNums (cs : List Char) : List (List Char) :=
  findNumsF cs.length cs

/-- Numeric value of an ASCII digit. -/
def digitVal (c : Char) : ℕ :=
  c.toNat - 48

/-- The natural number denoted by a digit string. -/
def natOfDigits (ds : List Char) : ℕ :=
  ds.foldl (fun a c => 10 * a + digitVal c) 0

/-- `float(tok.replace(',', ''))` for a token of the number regex:
drop the commas, then integer part plus fractional part.  Built with
`mkRat` so the value is kernel-computable. -/
def parseTok (tok : List Char) : ℚ :=
  let noC := tok.filter fun c => !(c == ',')
  let ip := noC.takeWhile fun c => !(c == '.')
  let fp := (noC.dropWhile fun c => !(c == '.')).drop 1
  mkRat (natOfDigits ip * 10 ^ fp.length + natOfDigits fp) (10 ^ fp.length)

/-- `extract_prices` — statistical_analysis_module.py lines 6-8. -/
def extract_prices (cs : List Char) : List ℚ :=
  (findNums cs).map parseTok

/-- The `all_prices` accumulation loop — statistical_analysis_module.py
lines 12-15. -/
def allPrices (docs : List (List Char)) : List ℚ :=
  docs.foldl (fun acc d => acc ++ extract_prices d) []

/-! ### Rounding (Python `round`, half to even) and integer square root -/

/-- Python's `round` to an integer: nearest, ties to even. -/
def rheQ (x : ℚ) : ℤ :=
  if x - ⌊x⌋ < 1/2 then ⌊x⌋
  else if 1/2 < x - ⌊x⌋ then ⌊x⌋ + 1
  else if ⌊x⌋ % 2 = 0 then ⌊x⌋ else ⌊x⌋ + 1

/-- Python `round(x, 1)`. -/
def round1 (x : ℚ) : ℚ :=
  (rheQ (x * 10) : ℚ) / 10

/-- Python `round(x, 2)`. -/
def round2 (x : ℚ) : ℚ :=
  (rheQ (x * 100) : ℚ) / 100

/-- Binary search for the integer square root, maintaining
`lo^2 ≤ n < hi^2`; stops when the interval has width one.  The fuel only
bounds the number of halvings, so recursion depth stays logarithmic. -/
def isqrtGo (n : ℕ) : ℕ → ℕ → ℕ → ℕ
  | 0, lo, _ => lo
  | fuel + 1, lo, hi =>
    if (lo + hi) / 2 = lo then lo
    else if ((lo + hi) / 2) * ((lo + hi) / 2) ≤ n then isqrtGo n fuel ((lo + hi) / 2) hi
    else isqrtGo n fuel lo ((lo + hi) / 2)

/-- `⌊√n⌋` for natural `n`, kernel-computable. -/
def isqrtUp (n : ℕ) : ℕ :=
  isqrtGo n n 0 (n + 1)

/-- `round(100 * sqrt v)` with ties to even, for `0 ≤ v : ℚ`, computed
exactly: with `v = a/b`, `⌊100√v⌋ = ⌊√(10000·a·b)⌋ / b` and the tie/half
comparisons reduce to integer comparisons of `40000·a` with `(2f+1)^2·b`. -/
def rheSqrt100 (v : ℚ) : ℤ :=
  let a := v.num.toNat
  let b := v.den
  let f := isqrtUp (10000 * a * b) / b
  if 40000 * a < (2 * f + 1) ^ 2 * b then (f : ℤ)
  else if 40000 * a = (2 * f + 1) ^ 2 * b then
    (if f % 2 = 0 then (f : ℤ) else (f : ℤ) + 1)
  else (f : ℤ) + 1

/-- `round(sqrt v, 2)`: the Python value
`round(statistics.stdev(...), 2)` applied to a sample variance `v`. -/
def round2sqrt (v : ℚ) : ℚ :=
  (rheSqrt100 v : ℚ) / 100

/-- The sample variance computed inside `statistics.stdev` (denominator
`n - 1`). -/
def sampleVar (xs : List ℚ) : ℚ :=
  ((xs.map fun x => (x - xs.sum / (xs.length : ℚ)) ^ 2).sum) / ((xs.length : ℚ) - 1)

/-! ### Labels and messages (string constants of the source) -/

/-- statistical_analysis_module.py line 18. -/
def noNumericMsg : String := "No numeric stock data found."

/-- statistical_analysis_module.py line 28. -/
def lowRiskLbl : String := "[LOW RISK]"

/-- statistical_analysis_module.py line 30. -/
def medRiskLbl : String := "[MEDIUM RISK]"

/-- statistical_analysis_module.py line 32. -/
def highRiskLbl : String := "[HIGH RISK]"

/-- statistical_analysis_module.py line 34. -/
def bullishLbl : String := "[BULLISH TREND]"

/-- statistical_analysis_module.py line 34. -/
def bearishLbl : String := "[BEARISH TREND]"

/-- statistical_analysis_module.py line 35. -/
def buyLbl : String := "[BUY RECOMMENDED]"

/-- statistical_analysis_module.py line 35. -/
def sellLbl : String := "[SELL RECOMMENDED]"

/-- The substring tested by `"BULLISH" in trend` (line 35). -/
def bullishWord : String := "BULLISH"

/-- Default label of the pydantic `AnalysisResult` fields (app.py 71-73). -/
def unknownLbl : String := "Unknown"

/-- app.py line 216. -/
def shortQueryMsg : String := "Query must be at least 3 characters long."

/-- app.py line 218. -/
def longQueryMsg : String := "Query is too long (max 500 chars)."

/-- app.py line 228. -/
def noDocsAnswer : String := "No relevant documents found for your query. Try different keywords related to NIFTY 50 stocks."

/-- app.py line 230. -/
def noDataAvailMsg : String := "No data available"

/-- app.py line 120. -/
def noInfoAnswer : String := "Sorry, I could not find relevant information to answer your question."

/-- app.py line 153. -/
def noFactsAnswer : String := "I found some relevant documents but could not extract specific facts. Please try rephrasing your question."

/-- app.py line 241. -/
def defaultSourceLbl : String := "NIFTY Market Data"

/-- The bullet prefix of app.py line 157 (mojibake bytes as in source). -/
def bulletMark : String := "â€¢ "

/-- app.py line 162. -/
def sourcesHeader : String := "\n\n**Sources:** "

/-- Separator of the sources list, app.py line 162. -/
def commaSep : String := ", "

/-- Line separator of the answer bullets, app.py line 164. -/
def newlineS : String := "\n"

/-! ### `analyze_documents` — statistical_analysis_module.py lines 10-45 -/

/-- The numeric fields and labels of a successful analysis. -/
structure StatsM where
  meanPrice : ℚ
  maxPrice : ℚ
  minPrice : ℚ
  volatility : ℚ
  riskLevel : String
  trend : String
  tradingSignal : String
deriving DecidableEq

/-- Return value of `analyze_documents`: the `{"Status": ...}` sentinel or
the full statistics dictionary. -/
inductive AnalyzeResult where
  | noData (status : String)
  | stats (s : StatsM)
deriving DecidableEq

/-- `analyze_documents` — statistical_analysis_module.py lines 10-45.
`statistics.mean` is the sum over the length; `statistics.stdev` is the
square root of the sample variance, and the code rounds it to 2 decimals
(`round2sqrt` computes that composition exactly). -/
def analyze_documents (docs : List (List Char)) : AnalyzeResult :=
  match allPrices docs with
  | [] => AnalyzeResult.noData noNumericMsg
  | p :: ps =>
    let mean_price := round2 ((p :: ps).sum / ((p :: ps).length : ℚ))
    let max_price := round2 (ps.foldl max p)
    let min_price := round2 (ps.foldl min p)
    let volatility := if 1 < (p :: ps).length then round2sqrt (sampleVar (p :: ps)) else 0
    let risk := if volatility < 20 then lowRiskLbl
                else if volatility < 50 then medRiskLbl
                else highRiskLbl
    let trend := if p < (p :: ps).getLast (List.cons_ne_nil p ps) then bullishLbl else bearishLbl
    let signal := if containsSub trend.toList bullishWord.toList then buyLbl else sellLbl
    AnalyzeResult.stats ⟨mean_price, max_price, min_price, volatility, risk, trend, signal⟩

/-- Volatility field of an analysis, when present. -/
def analysisVol : AnalyzeResult → Option ℚ
  | AnalyzeResult.noData _ => none
  | AnalyzeResult.stats s => some s.volatility

/-- Mean-price field of an analysis, when present. -/
def analysisMean : AnalyzeResult → Option ℚ
  | AnalyzeResult.noData _ => none
  | AnalyzeResult.stats s => some s.meanPrice

/-- Trend field of an analysis, when present. -/
def analysisTrend : AnalyzeResult → Option String
  | AnalyzeResult.noData _ => none
  | AnalyzeResult.stats s => some s.trend

/-- The pydantic `AnalysisResult` model — app.py lines 66-74. -/
structure AnalysisResultM where
  mean_price : Option ℚ
  max_price : Option ℚ
  min_price : Option ℚ
  volatility : Option ℚ
  risk_level : String
  trend : String
  trading_signal : String
  status : Option String
deriving DecidableEq

/-- `run_statistical_analysis` — app.py lines 167-182. -/
def run_statistical_analysis (docs : List (List Char)) : AnalysisResultM :=
  match analyze_documents docs with
  | AnalyzeResult.noData msg =>
    ⟨none, none, none, none, unknownLbl, unknownLbl, unknownLbl, some msg⟩
  | AnalyzeResult.stats s =>
    ⟨some s.meanPrice, some s.maxPrice, some s.minPrice, some s.volatility,
      s.riskLevel, s.trend, s.tradingSignal, none⟩

/-! ### Retrieval filter — app.py `search_documents`, lines 88-115
(same threshold loop in query_engine.py lines 35-44) -/

/-- A Chroma metadata dictionary restricted to the two keys the code
reads; `none` models a missing key. -/
structure MetaM where
  source : Option (List Char)
  timestamp : Option (List Char)
deriving DecidableEq

/-- The fixed relevance threshold of app.py line 110. -/
def distThreshold : ℚ := 1.8

/-- The filtering loop of app.py lines 108-113 over the zipped
(document, metadata, distance) triples. -/
def filterTriples : List ((List Char) × MetaM × ℚ) → List ((List Char) × MetaM × ℚ)
  | [] => []
  | t :: rest =>
    if t.2.2 < distThreshold then t :: filterTriples rest else filterTriples rest

/-- `search_documents`, given the index's reply (its first result row):
filter by distance and return the three parallel lists
(app.py lines 104-115). -/
def search_documents (docs : List (List Char)) (metas : List MetaM) (dists : List ℚ) :
    List (List Char) × List MetaM × List ℚ :=
  let kept := filterTriples (docs.zip (metas.zip dists))
  (kept.map fun t => t.1, kept.map fun t => t.2.1, kept.map fun t => t.2.2)

/-- `relevance_pct` — app.py line 237 (same formula query_engine.py 48). -/
def relevancePct (dist : ℚ) : ℚ :=
  max 0 (round1 ((1 - dist / 2) * 100))

/-- The pydantic `QueryResult` model — app.py lines 59-63. -/
structure QueryResultM where
  content : List Char
  source : List Char
  date : List Char
  relevance : ℚ
deriving DecidableEq

/-- One entry of the result list — app.py lines 236-244. -/
def resultOf (t : (List Char) × MetaM × ℚ) : QueryResultM :=
  ⟨if 500 < t.1.length then stripL (t.1.take 500) else stripL t.1,
    t.2.1.source.getD defaultSourceLbl.toList,
    t.2.1.timestamp.getD unknownLbl.toList,
    relevancePct t.2.2⟩

/-- The result list of the `/query` response — app.py lines 234-244. -/
def buildResults (l : List ((List Char) × MetaM × ℚ)) : List QueryResultM :=
  l.map resultOf

/-! ### `generate_answer` — app.py lines 118-164 -/

/-- The `sources_used` accumulation (app.py lines 135-138): one entry per
document whose metadata has a nonempty source.  (The code indexes
`metadatas[i]` while iterating documents; with parallel lists this is the
zip.) -/
def sourcesFrom (docs : List (List Char)) (metas : List MetaM) : List (List Char) :=
  if metas.isEmpty then []
  else (docs.zip metas).filterMap fun dm =>
    if dm.2.source.getD [] = [] then none else some (dm.2.source.getD [])

/-- `generate_answer` — app.py lines 118-164.  The source attribution uses
`list(set(sources_used))`, whose display order CPython does not fix; we
model it as first-seen order (the claims under verification do not
constrain this order). -/
def generate_answer (question : List Char) (docs : List (List Char)) (metas : List MetaM) :
    List Char :=
  if docs = [] then noInfoAnswer.toList
  else if finalFacts question docs = [] then noFactsAnswer.toList
  else
    let lines := (finalFacts question docs).map fun f => bulletMark.toList ++ f
    let sources := dedupeFS [] (sourcesFrom docs metas)
    let note := if sources = [] then []
                else sourcesHeader.toList ++ List.intercalate commaSep.toList sources
    List.intercalate newlineS.toList lines ++ note

/-! ### The `/query` endpoint — app.py `query_stocks`, lines 213-258 -/

/-- The reply of the external vector index for one query: the three
parallel lists `documents[0]`, `metadatas[0]`, `distances[0]`. -/
structure IndexReply where
  docs : List (List Char)
  metas : List MetaM
  dists : List ℚ

/-- The pydantic `QueryResponse` model — app.py lines 77-83. -/
structure QueryResponseM where
  question : List Char
  answer : List Char
  results : List QueryResultM
  analysis : AnalysisResultM
  doc_count : ℕ
deriving DecidableEq

/-- Outcome of the endpoint: an `HTTPException` (status code, detail) or a
well-formed response. -/
inductive Outcome where
  | httpError (code : ℕ) (detail : String)
  | ok (resp : QueryResponseM)
deriving DecidableEq

/-- `query_stocks` — app.py lines 213-258, with the index reply passed in
(the retrieval call itself is the external boundary; a failure of both
index calls, surfaced as HTTP 500 on lines 222-223, is outside the model). -/
def query_stocks (query : List Char) (r : IndexReply) : Outcome :=
  if query = [] ∨ (stripL query).length < 3 then Outcome.httpError 400 shortQueryMsg
  else if 500 < query.length then Outcome.httpError 400 longQueryMsg
  else
    let res := search_documents r.docs r.metas r.dists
    if res.1 = [] then
      Outcome.ok ⟨query, noDocsAnswer.toList, [],
        ⟨none, none, none, none, unknownLbl, unknownLbl, unknownLbl, some noDataAvailMsg⟩, 0⟩
    else
      Outcome.ok ⟨query, generate_answer query res.1 res.2.1,
        buildResults (res.1.zip (res.2.1.zip res.2.2)),
        run_statistical_analysis res.1, res.1.length⟩

/-! ### Concrete inputs used by witnesses and counterexamples -/

/-- The document of the spec's end-to-end scenario (§8). -/
def docC6 : List Char :=
  "The NIFTY 50 rose 2% today reaching 22150.35 points, showing a bullish trend.".toList

/-- The question of the spec's end-to-end scenario (§8). -/
def qC6 : List Char := "What is the current market trend?".toList

/-- A metadata dictionary with both keys missing. -/
def metaNone : MetaM := ⟨none, none⟩

/-- A two-number document pooling `[0, 1]`. -/
def doc01 : List Char := "0 1".toList

/-- A document whose only long sentence comes after three short ones. -/
def docC4 : List Char :=
  "a. b. c. This sentence is definitely longer than thirty characters.".toList

/-- A question sharing no four-letter keyword with `docC4`. -/
def qC4 : List Char := "zzzz".toList

/-- A document with no digit characters. -/
def docNoDigits : List Char := "no numbers here!".toList

/-- A two-character query. -/
def qHi : List Char := "hi".toList

/-- A valid five-character query. -/
def qHello : List Char := "hello".toList

/-- An empty index reply. -/
def replyEmpty : IndexReply := ⟨[], [], []⟩

/-- An index reply with one close match. -/
def replyNear : IndexReply := ⟨[docC6], [metaNone], [mkRat 1 2]⟩

/-- An index reply whose only candidate is past the threshold. -/
def replyFar : IndexReply := ⟨[docC6], [metaNone], [2]⟩

/-- A document pooling the two numbers 100 and 20. -/
def docPrices : List Char := "Price 100 Cost 20".toList

/-! ## Helper lemmas -/

/-- `dropWhile` never lengthens a list. -/
theorem dropWhile_len_le (p : Char → Bool) : ∀ l : List Char, (l.dropWhile p).length ≤ l.length := by
  intro l
  induction l with
  | nil => simp [List.dropWhile]
  | cons c cs ih =>
    by_cases h : p c
    · simp only [List.dropWhile, h]
      exact le_trans ih (Nat.le_succ _)
    · simp [List.dropWhile, h]

/-- Stripping never lengthens a string. -/
theorem stripL_length_le (cs : List Char) : (stripL cs).length ≤ cs.length := by
  unfold stripL
  simp only [List.length_reverse]
  exact le_trans (dropWhile_len_le _ _) (by simpa using dropWhile_len_le isSpaceCh cs)

/-- Folding list appends from an initial accumulator splits off the
accumulator. -/
theorem foldl_app {α β : Type} (f : β → List α) :
    ∀ (l : List β) (acc : List α),
      l.foldl (fun a d => a ++ f d) acc = acc ++ l.foldl (fun a d => a ++ f d) [] := by
  intro l
  induction l with
  | nil => intro acc; simp
  | cons d ds ih =>
    intro acc
    simp only [List.foldl_cons]
    rw [ih (acc ++ f d), List.nil_append, ih (f d), List.append_assoc]

/-- One step of the `all_prices` accumulation. -/
theorem allPrices_cons (d : List Char) (ds : List (List Char)) :
    allPrices (d :: ds) = extract_prices d ++ allPrices ds := by
  unfold allPrices
  simp only [List.foldl_cons, List.nil_append]
  exact foldl_app extract_prices ds (extract_prices d)

/-- One step of the `extracted_facts` accumulation. -/
theorem extractedFacts_cons (q d : List Char) (ds : List (List Char)) :
    extractedFacts q (d :: ds) = sentenceFacts (questionKeywords q) d ++ extractedFacts q ds := by
  unfold extractedFacts
  simp only [List.foldl_cons, List.nil_append]
  exact foldl_app _ ds _

/-! ### Rounding lemmas -/

/-- Half-to-even rounding lands within a half of the input. -/
theorem rheQ_abs (x : ℚ) : |(rheQ x : ℚ) - x| ≤ 1/2 := by
  have h1 := Int.floor_le x
  have h2 := Int.lt_floor_add_one x
  unfold rheQ
  split_ifs with ha hb hc <;>
    · rw [abs_le]
      constructor <;> push_cast <;> linarith

/-- Half-to-even rounding is monotone. -/
theorem rheQ_mono {x y : ℚ} (h : x ≤ y) : rheQ x ≤ rheQ y := by
  have hf : ⌊x⌋ ≤ ⌊y⌋ := Int.floor_mono h
  have hx1 := Int.floor_le x
  have hx2 := Int.lt_floor_add_one x
  have hy1 := Int.floor_le y
  have hy2 := Int.lt_floor_add_one y
  unfold rheQ
  rcases eq_or_lt_of_le hf with heq | hlt
  · rw [← heq]
    have hxy : x - ⌊x⌋ ≤ y - ⌊x⌋ := by linarith
    have hyx : (⌊x⌋ : ℚ) ≤ y := by rw [heq]; exact hy1
    split_ifs <;> first | omega | linarith
  · have hstep : ⌊x⌋ + 1 ≤ ⌊y⌋ := hlt
    split_ifs <;> omega

/-- `round(·, 2)` lands within `1/200` of the input. -/
theorem round2_abs (x : ℚ) : |round2 x - x| ≤ 1/200 := by
  unfold round2
  have h := rheQ_abs (x * 100)
  rw [abs_le] at h ⊢
  constructor <;> · obtain ⟨hl, hr⟩ := h; linarith

/-- `round(·, 2)` is monotone. -/
theorem round2_mono {x y : ℚ} (h : x ≤ y) : round2 x ≤ round2 y := by
  unfold round2
  have := rheQ_mono (mul_le_mul_of_nonneg_right h (by norm_num : (0:ℚ) ≤ 100))
  have hcast : ((rheQ (x * 100) : ℤ) : ℚ) ≤ ((rheQ (y * 100) : ℤ) : ℚ) := by exact_mod_cast this
  linarith

/-- `round(0, 2) = 0`. -/
theorem round2_zero : round2 0 = 0 := by
  unfold round2 rheQ
  norm_num

/-- `round(·, 2)` preserves nonnegativity. -/
theorem round2_nonneg {x : ℚ} (h : 0 ≤ x) : 0 ≤ round2 x := by
  have := round2_mono h
  rw [round2_zero] at this
  exact this

/-- A 2-decimal rounding times 100 is an integer. -/
theorem round2_den (x : ℚ) : (round2 x * 100).den = 1 := by
  unfold round2
  rw [div_mul_cancel₀ _ (by norm_num : (100:ℚ) ≠ 0)]
  exact Rat.den_intCast _

/-- `round(·, 1)` is monotone. -/
theorem round1_mono {x y : ℚ} (h : x ≤ y) : round1 x ≤ round1 y := by
  unfold round1
  have := rheQ_mono (mul_le_mul_of_nonneg_right h (by norm_num : (0:ℚ) ≤ 10))
  have hcast : ((rheQ (x * 10) : ℤ) : ℚ) ≤ ((rheQ (y * 10) : ℤ) : ℚ) := by exact_mod_cast this
  linarith

/-- The relevance transform is antitone in the distance. -/
theorem relevancePct_anti {d d' : ℚ} (h : d ≤ d') : relevancePct d' ≤ relevancePct d := by
  unfold relevancePct
  exact max_le_max le_rfl (round1_mono (by linarith))

/-! ### Retrieval-filter lemmas -/

/-- The filtering loop is `List.filter` with the threshold predicate. -/
theorem filterTriples_eq_filter (l : List ((List Char) × MetaM × ℚ)) :
    filterTriples l = l.filter fun t => decide (t.2.2 < distThreshold) := by
  induction l with
  | nil => rfl
  | cons t rest ih =>
    by_cases h : t.2.2 < distThreshold
    · simp [filterTriples, List.filter, h, ih]
    · simp [filterTriples, List.filter, h, ih]

/-- If no triple passes the threshold, the filter is empty. -/
theorem filterTriples_nil (l : List ((List Char) × MetaM × ℚ))
    (h : ∀ t ∈ l, ¬ t.2.2 < distThreshold) : filterTriples l = [] := by
  induction l with
  | nil => rfl
  | cons t rest ih =>
    simp only [filterTriples, if_neg (h t (List.mem_cons_self t rest))]
    exact ih fun x hx => h x (List.mem_cons_of_mem t hx)

/-! ## Claim C1 — the retrieval filter -/

/-- Claim C1: for every candidate list returned by the vector index, the
retrieval filter keeps exactly those matches whose distance is strictly
below 1.8, preserving the index's return order; no triple with distance
`≥ 1.8` appears in the output. -/
theorem claim_C1_retrieval_filter (l : List ((List Char) × MetaM × ℚ)) :
    filterTriples l = (l.filter fun t => decide (t.2.2 < (1.8 : ℚ))) ∧
    List.Sublist (filterTriples l) l ∧
    (∀ t ∈ filterTriples l, t.2.2 < (1.8 : ℚ)) ∧
    (∀ t ∈ l, t.2.2 < (1.8 : ℚ) → t ∈ filterTriples l) := by
  have heq : filterTriples l = l.filter fun t => decide (t.2.2 < (1.8 : ℚ)) :=
    filterTriples_eq_filter l
  refine ⟨heq, ?_, ?_, ?_⟩
  · rw [heq]; exact List.filter_sublist l
  · intro t ht
    rw [heq] at ht
    simpa using (List.mem_filter.1 ht).2
  · intro t ht hlt
    rw [heq]
    exact List.mem_filter.2 ⟨ht, by simpa using hlt⟩

unseal Rat.mul Rat.inv Rat.add Rat.sub Rat.ofScientific in
/-- Witness for C1 on a concrete two-candidate reply. -/
theorem claim_C1_witness :
    filterTriples [(docC6, metaNone, mkRat 1 2), (doc01, metaNone, 2)] =
      [(docC6, metaNone, mkRat 1 2)] ∧
    (∀ t ∈ filterTriples [(docC6, metaNone, mkRat 1 2), (doc01, metaNone, 2)],
      t.2.2 < (1.8 : ℚ)) := by
  refine ⟨by decide, ?_⟩
  exact (claim_C1_retrieval_filter [(docC6, metaNone, mkRat 1 2), (doc01, metaNone, 2)]).2.2.1

/-! ## Claim C2 — the relevance transform -/

unseal Rat.mul Rat.inv Rat.add Rat.sub Rat.ofScientific in
/-- Claim C2: every retained match is given relevance
`max(0, round((1 - d/2)·100, 1))`; the transform sends 0 to 100 and 1.8 to
10.0, is monotonically decreasing in the distance, and is clamped at 0. -/
theorem claim_C2_relevance (l : List ((List Char) × MetaM × ℚ)) (d d' : ℚ) :
    ((buildResults l).map fun r => r.relevance) = (l.map fun t => relevancePct t.2.2) ∧
    relevancePct d = max 0 (round1 ((1 - d / 2) * 100)) ∧
    relevancePct 0 = 100 ∧
    relevancePct (1.8 : ℚ) = 10 ∧
    (d ≤ d' → relevancePct d' ≤ relevancePct d) ∧
    0 ≤ relevancePct d := by
  refine ⟨?_, rfl, by decide, by decide, fun h => relevancePct_anti h, le_max_left 0 _⟩
  simp only [buildResults, List.map_map]
  rfl

/-- Witness for C2 at distance 0 against distance 1. -/
theorem claim_C2_witness :
    (0 : ℚ) ≤ 1 ∧ relevancePct 1 ≤ relevancePct 0 ∧ relevancePct 0 = 100 := by
  refine ⟨by norm_num, ?_, ?_⟩
  · exact (claim_C2_relevance [] 0 1).2.2.2.2.1 (by norm_num)
  · exact (claim_C2_relevance [] 0 1).2.2.1

/-! ### Deduplication lemmas -/

/-- The deduplicated list is a sublist of the input: order is preserved. -/
theorem dedupeFS_sublist : ∀ (seen l : List (List Char)), List.Sublist (dedupeFS seen l) l := by
  intro seen l
  induction l generalizing seen with
  | nil => simp [dedupeFS]
  | cons f fs ih =>
    by_cases h : f ∈ seen
    · simp only [dedupeFS, if_pos h]
      exact (ih seen).trans (List.sublist_cons_self f fs)
    · simp only [dedupeFS, if_neg h]
      exact List.Sublist.cons₂ f (ih (f :: seen))

/-- Membership in the deduplicated list. -/
theorem mem_dedupeFS : ∀ (seen l : List (List Char)) (x : List Char),
    x ∈ dedupeFS seen l ↔ x ∈ l ∧ x ∉ seen := by
  intro seen l
  induction l generalizing seen with
  | nil => simp [dedupeFS]
  | cons f fs ih =>
    intro x
    by_cases h : f ∈ seen
    · simp only [dedupeFS, if_pos h, ih seen x, List.mem_cons]
      constructor
      · rintro ⟨hx, hs⟩; exact ⟨Or.inr hx, hs⟩
      · rintro ⟨hx | hx, hs⟩
        · exact absurd (hx ▸ h) hs
        · exact ⟨hx, hs⟩
    · simp only [dedupeFS, if_neg h, List.mem_cons, ih (f :: seen) x]
      constructor
      · rintro (rfl | ⟨hx, hs⟩)
        · exact ⟨Or.inl rfl, h⟩
        · exact ⟨Or.inr hx, fun hx' => hs (Or.inr hx')⟩
      · rintro ⟨rfl | hx, hs⟩
        · exact Or.inl rfl
        · by_cases hxf : x = f
          · exact Or.inl hxf
          · exact Or.inr ⟨hx, by simp [hxf, hs]⟩

/-- The deduplicated list has no duplicates. -/
theorem dedupeFS_nodup : ∀ (seen l : List (List Char)), (dedupeFS seen l).Nodup := by
  intro seen l
  induction l generalizing seen with
  | nil => simp [dedupeFS]
  | cons f fs ih =>
    by_cases h : f ∈ seen
    · simpa only [dedupeFS, if_pos h] using ih seen
    · simp only [dedupeFS, if_neg h, List.nodup_cons]
      refine ⟨fun hf => ?_, ih (f :: seen)⟩
      exact ((mem_dedupeFS (f :: seen) fs f).1 hf).2 (List.mem_cons_self f seen)

/-! ### Fact-extraction lemmas -/

/-- The per-sentence keep test of the code (`matches >= 1 and
len(sentence) > 30`) is the spec's existential: the sentence contains at
least one keyword, and is longer than 30 characters. -/
theorem keep_iff (kws : List (List Char)) (s : List Char) :
    (1 ≤ keepCount kws s ∧ 30 < s.length) ↔
      ((∃ kw ∈ kws, containsSub (toLowerL s) kw = true) ∧ 30 < s.length) := by
  have h : 1 ≤ keepCount kws s ↔ 0 < keepCount kws s := by omega
  rw [h]
  unfold keepCount
  rw [List.countP_pos_iff]

/-- One document's contribution is the filter-then-strip of its
sentences. -/
theorem sentenceFacts_eq (kws : List (List Char)) (doc : List Char) :
    sentenceFacts kws doc =
      ((splitSentences (stripL doc)).filter fun s =>
        decide (∃ kw ∈ kws, containsSub (toLowerL s) kw = true) && decide (30 < s.length)).map
        stripL := by
  unfold sentenceFacts
  induction splitSentences (stripL doc) with
  | nil => rfl
  | cons s t ih =>
    simp only [List.filterMap_cons, List.filter_cons]
    by_cases hk : ∃ kw ∈ kws, containsSub (toLowerL s) kw = true
    · by_cases h30 : 30 < s.length
      · rw [if_pos ((keep_iff kws s).2 ⟨hk, h30⟩)]
        simp only [decide_eq_true hk, decide_eq_true h30, Bool.and_self, if_pos]
        rw [List.map_cons, ih]
      · rw [if_neg (fun hc => h30 ((keep_iff kws s).1 hc).2)]
        have : decide (30 < s.length) = false := by simpa using h30
        simp only [this, Bool.and_false, Bool.false_eq_true, if_neg, ih]
        simp
    · by_cases h30 : 30 < s.length
      · rw [if_neg (fun hc => hk ((keep_iff kws s).1 hc).1)]
        have : decide (∃ kw ∈ kws, containsSub (toLowerL s) kw = true) = false := by
          simpa using hk
        simp only [this, Bool.false_and, Bool.false_eq_true, if_neg, ih]
        simp
      · rw [if_neg (fun hc => h30 ((keep_iff kws s).1 hc).2)]
        have : decide (30 < s.length) = false := by simpa using h30
        simp only [this, Bool.and_false, Bool.false_eq_true, if_neg, ih]
        simp

/-! ## Claim C3 — fact extraction, deduplication, truncation -/

/-- Claim C3: a sentence is kept iff it contains at least one question
keyword of length ≥ 4 (case-insensitive substring containment) and is
longer than 30 characters; the surviving facts are deduplicated by exact
equality preserving first-seen order and truncated to at most 5. -/
theorem claim_C3_fact_extraction (q : List Char) (docs : List (List Char)) :
    extractedFacts q docs =
      ((allSentences docs).filter fun s =>
        decide (∃ kw ∈ questionKeywords q, containsSub (toLowerL s) kw = true) &&
          decide (30 < s.length)).map stripL ∧
    (dedupeFS [] (extractedFacts q docs)).Nodup ∧
    List.Sublist (dedupeFS [] (extractedFacts q docs)) (extractedFacts q docs) ∧
    (∀ f, f ∈ dedupeFS [] (extractedFacts q docs) ↔ f ∈ extractedFacts q docs) ∧
    topFacts q docs = (dedupeFS [] (extractedFacts q docs)).take 5 ∧
    (topFacts q docs).length ≤ 5 := by
  refine ⟨?_, dedupeFS_nodup [] _, dedupeFS_sublist [] _, ?_, rfl, ?_⟩
  · induction docs with
    | nil => rfl
    | cons d ds ih =>
      rw [extractedFacts_cons]
      have hall : allSentences (d :: ds) = splitSentences (stripL d) ++ allSentences ds := by
        unfold allSentences
        simp [List.foldr_cons]
      rw [hall, List.filter_append, List.map_append, ih, sentenceFacts_eq]
  · intro f
    rw [mem_dedupeFS]
    simp
  · unfold topFacts
    exact le_trans (List.length_take_le 5 _) le_rfl

/-- Witness for C3 on the end-to-end scenario inputs. -/
theorem claim_C3_witness :
    topFacts qC6 [docC6] = [docC6] ∧ (topFacts qC6 [docC6]).length ≤ 5 := by
  refine ⟨by decide, ?_⟩
  exact (claim_C3_fact_extraction qC6 [docC6]).2.2.2.2.2

/-! ## Claim C4 — the fallback path (corrected) -/

/-- Counterexample to C4 as stated: the first document has a sentence
longer than 30 characters, yet the final fact list is empty — the fallback
only inspects the first three sentences of the first document, and here
the long sentence is the fourth. -/
theorem claim_C4_counterexample :
    (∃ d ∈ [docC4], ∃ s ∈ splitSentences (stripL d), 30 < s.length) ∧
    finalFacts qC4 [docC4] = [] := by
  constructor
  · decide
  · decide

/-- Claim C4 (amended): if no fact survives the keyword filter, the
fallback is those of the *first three* sentences of the first document
that exceed 30 characters; it never returns more than 3 items, the final
fact list always has length ≤ 5, and the final fact list is non-empty
whenever one of the first three sentences of the first document is longer
than 30 characters. -/
theorem claim_C4_amended (q d : List Char) (ds : List (List Char)) :
    fallbackFacts (d :: ds) =
      ((splitSentences (stripL d)).take 3).filterMap
        (fun s => if 30 < s.length then some (stripL s) else none) ∧
    (fallbackFacts (d :: ds)).length ≤ 3 ∧
    (finalFacts q (d :: ds)).length ≤ 5 ∧
    (topFacts q (d :: ds) = [] → finalFacts q (d :: ds) = fallbackFacts (d :: ds)) ∧
    ((∃ s ∈ (splitSentences (stripL d)).take 3, 30 < s.length) →
      finalFacts q (d :: ds) ≠ []) := by
  refine ⟨rfl, ?_, ?_, ?_, ?_⟩
  · unfold fallbackFacts
    exact le_trans (List.length_filterMap_le _ _) (le_trans (List.length_take_le 3 _) le_rfl)
  · unfold finalFacts
    split_ifs with h
    · refine le_trans ?_ (by norm_num : (3:ℕ) ≤ 5)
      unfold fallbackFacts
      exact le_trans (List.length_filterMap_le _ _) (le_trans (List.length_take_le 3 _) le_rfl)
    · unfold topFacts
      exact le_trans (List.length_take_le 5 _) le_rfl
  · intro h
    unfold finalFacts
    rw [if_pos h]
  · rintro ⟨s, hs, hlen⟩
    unfold finalFacts
    split_ifs with h
    · intro hnil
      have hmem : stripL s ∈ fallbackFacts (d :: ds) := by
        unfold fallbackFacts
        exact List.mem_filterMap.2 ⟨s, hs, by rw [if_pos hlen]⟩
      rw [hnil] at hmem
      exact (List.not_mem_nil _) hmem
    · exact h

/-- Witness for the amended C4: a one-document corpus whose first sentence
is long; the fallback yields it. -/
theorem claim_C4_witness :
    (∃ s ∈ (splitSentences (stripL docC6)).take 3, 30 < s.length) ∧
    finalFacts qC4 [docC6] ≠ [] ∧ (finalFacts qC4 [docC6]).length ≤ 5 := by
  refine ⟨by decide, ?_, ?_⟩
  · exact (claim_C4_amended qC4 docC6 []).2.2.2.2 (by decide)
  · exact (claim_C4_amended qC4 docC6 []).2.2.1

/-! ## Claim C7 — the no-numeric-data sentinel -/

/-- If a string has no digit, the number scanner finds nothing. -/
theorem findNumsF_no_digits :
    ∀ (fuel : ℕ) (cs : List Char), (∀ c ∈ cs, isDigitCh c = false) → findNumsF fuel cs = [] := by
  intro fuel
  induction fuel with
  | zero => intro cs _; rfl
  | succ f ih =>
    intro cs h
    cases cs with
    | nil => rfl
    | cons c cs' =>
      simp only [findNumsF]
      rw [if_neg (by simp [h c (List.mem_cons_self c cs')])]
      exact ih cs' fun x hx => h x (List.mem_cons_of_mem c hx)

/-- A digit-free document contributes no prices. -/
theorem extract_prices_no_digits (cs : List Char) (h : ∀ c ∈ cs, isDigitCh c = false) :
    extract_prices cs = [] := by
  unfold extract_prices findNums
  rw [findNumsF_no_digits cs.length cs h]
  rfl

/-- A digit-free corpus pools no prices. -/
theorem allPrices_no_digits (docs : List (List Char))
    (h : ∀ d ∈ docs, ∀ c ∈ d, isDigitCh c = false) : allPrices docs = [] := by
  induction docs with
  | nil => rfl
  | cons d ds ih =>
    rw [allPrices_cons, extract_prices_no_digits d (h d (List.mem_cons_self d ds))]
    exact ih fun x hx => h x (List.mem_cons_of_mem d hx)

/-- Claim C7: on a document list with no numeric substrings,
`analyze_documents` returns exactly the no-data sentinel, and the API
surfaces it as a status field with every numeric field absent — not as an
error. -/
theorem claim_C7_no_numeric (docs : List (List Char))
    (h : ∀ d ∈ docs, ∀ c ∈ d, isDigitCh c = false) :
    analyze_documents docs = AnalyzeResult.noData noNumericMsg ∧
    run_statistical_analysis docs =
      ⟨none, none, none, none, unknownLbl, unknownLbl, unknownLbl, some noNumericMsg⟩ := by
  have h0 := allPrices_no_digits docs h
  constructor
  · unfold analyze_documents
    rw [h0]
  · unfold run_statistical_analysis analyze_documents
    rw [h0]

/-- Witness for C7 on a digit-free document. -/
theorem claim_C7_witness :
    analyze_documents [docNoDigits] = AnalyzeResult.noData noNumericMsg ∧
    run_statistical_analysis [docNoDigits] =
      ⟨none, none, none, none, unknownLbl, unknownLbl, unknownLbl, some noNumericMsg⟩ :=
  claim_C7_no_numeric [docNoDigits] (by decide)

/-! ## Claim C8 — query validation -/

/-- Claim C8: every query shorter than 3 characters or longer than 500 is
rejected with an HTTP 400 validation detail, and the outcome does not
depend on the index reply — no retrieval result is consulted. -/
theorem claim_C8_validation (q : List Char) (r r' : IndexReply)
    (h : q.length < 3 ∨ 500 < q.length) :
    (∃ d, query_stocks q r = Outcome.httpError 400 d ∧
      (d = shortQueryMsg ∨ d = longQueryMsg)) ∧
    query_stocks q r = query_stocks q r' := by
  unfold query_stocks
  by_cases h1 : q = [] ∨ (stripL q).length < 3
  · rw [if_pos h1, if_pos h1]
    exact ⟨⟨shortQueryMsg, rfl, Or.inl rfl⟩, rfl⟩
  · have h2 : 500 < q.length := by
      rcases h with hs | hl
      · exact absurd (Or.inr (lt_of_le_of_lt (stripL_length_le q) hs)) h1
      · exact hl
    rw [if_neg h1, if_neg h1, if_pos h2, if_pos h2]
    exact ⟨⟨longQueryMsg, rfl, Or.inr rfl⟩, rfl⟩

/-- Witness for C8: the two-character query `"hi"` is rejected identically
under two different index replies. -/
theorem claim_C8_witness :
    qHi.length < 3 ∧
    (∃ d, query_stocks qHi replyEmpty = Outcome.httpError 400 d ∧
      (d = shortQueryMsg ∨ d = longQueryMsg)) ∧
    query_stocks qHi replyEmpty = query_stocks qHi replyNear := by
  refine ⟨by decide, ?_, ?_⟩
  · exact (claim_C8_validation qHi replyEmpty replyNear (Or.inl (by decide))).1
  · exact (claim_C8_validation qHi replyEmpty replyNear (Or.inl (by decide))).2

/-! ## Claim C9 — empty retrieval is a well-formed no-results outcome -/

/-- Claim C9: when every candidate distance fails the 1.8 threshold (which
covers an empty reply), the filter returns three empty sequences, and for
a valid query the endpoint answers with the no-results response:
`doc_count = 0`, empty result list, and the no-data analysis status. -/
theorem claim_C9_empty_retrieval (q : List Char) (r : IndexReply)
    (hq1 : 3 ≤ (stripL q).length) (hq2 : q.length ≤ 500)
    (hfar : ∀ x ∈ r.dists, distThreshold ≤ x) :
    search_documents r.docs r.metas r.dists = ([], [], []) ∧
    query_stocks q r = Outcome.ok ⟨q, noDocsAnswer.toList, [],
      ⟨none, none, none, none, unknownLbl, unknownLbl, unknownLbl, some noDataAvailMsg⟩, 0⟩ := by
  have hfilter : filterTriples (r.docs.zip (r.metas.zip r.dists)) = [] := by
    apply filterTriples_nil
    rintro ⟨d, m, x⟩ ht
    have h1 := (List.of_mem_zip ht).2
    have h2 := (List.of_mem_zip h1).2
    exact not_lt.2 (hfar x h2)
  have hsearch : search_documents r.docs r.metas r.dists = ([], [], []) := by
    unfold search_documents
    rw [hfilter]
    rfl
  refine ⟨hsearch, ?_⟩
  have hqne : q ≠ [] := by
    intro hq
    rw [hq] at hq1
    exact absurd hq1 (by decide)
  unfold query_stocks
  rw [if_neg (not_or.2 ⟨hqne, not_lt.2 hq1⟩), if_neg (not_lt.2 hq2), hsearch]
  rfl

unseal Rat.mul Rat.inv Rat.add Rat.sub Rat.ofScientific in
/-- Witness for C9: a valid query against a reply whose single candidate
is at distance 2. -/
theorem claim_C9_witness :
    (∀ x ∈ replyFar.dists, distThreshold ≤ x) ∧
    search_documents replyFar.docs replyFar.metas replyFar.dists = ([], [], []) ∧
    query_stocks qHello replyFar = Outcome.ok ⟨qHello, noDocsAnswer.toList, [],
      ⟨none, none, none, none, unknownLbl, unknownLbl, unknownLbl, some noDataAvailMsg⟩, 0⟩ := by
  refine ⟨by decide, ?_, ?_⟩
  · exact (claim_C9_empty_retrieval qHello replyFar (by decide) (by decide) (by decide)).1
  · exact (claim_C9_empty_retrieval qHello replyFar (by decide) (by decide) (by decide)).2

/-! ## Claim C10 — 0 ≤ min ≤ mean ≤ max -/

/-- Every token the number regex parses is non-negative: it is a quotient
of naturals. -/
theorem parseTok_nonneg (tok : List Char) : 0 ≤ parseTok tok := by
  unfold parseTok
  rw [Rat.mkRat_eq_div]
  positivity

/-- Every pooled price comes from some document's extraction. -/
theorem mem_allPrices : ∀ (docs : List (List Char)) (x : ℚ),
    x ∈ allPrices docs → ∃ d ∈ docs, x ∈ extract_prices d := by
  intro docs
  induction docs with
  | nil => intro x hx; simp [allPrices] at hx
  | cons d ds ih =>
    intro x hx
    rw [allPrices_cons] at hx
    rcases List.mem_append.1 hx with h | h
    · exact ⟨d, List.mem_cons_self d ds, h⟩
    · obtain ⟨d', hd', hx'⟩ := ih x h
      exact ⟨d', List.mem_cons_of_mem d hd', hx'⟩

/-- Every pooled price is non-negative. -/
theorem allPrices_nonneg (docs : List (List Char)) (x : ℚ) (hx : x ∈ allPrices docs) :
    0 ≤ x := by
  obtain ⟨d, _, hxd⟩ := mem_allPrices docs x hx
  unfold extract_prices at hxd
  obtain ⟨tok, _, rfl⟩ := List.mem_map.1 hxd
  exact parseTok_nonneg tok

/-- A min-fold is bounded by its initial value. -/
theorem foldl_min_le_init : ∀ (t : List ℚ) (i : ℚ), t.foldl min i ≤ i := by
  intro t
  induction t with
  | nil => intro i; simp
  | cons a t ih => intro i; exact le_trans (ih (min i a)) (min_le_left i a)

/-- A min-fold is bounded by every element of the full list. -/
theorem foldl_min_le_mem : ∀ (ps : List ℚ) (p x : ℚ), x ∈ p :: ps → ps.foldl min p ≤ x := by
  intro ps
  induction ps with
  | nil =>
    intro p x hx
    rcases List.mem_cons.1 hx with rfl | hx'
    · simp
    · simp at hx'
  | cons a t ih =>
    intro p x hx
    rcases List.mem_cons.1 hx with rfl | hx'
    · exact le_trans (foldl_min_le_init t (min x a)) (min_le_left x a)
    · rcases List.mem_cons.1 hx' with rfl | hx''
      · exact le_trans (foldl_min_le_init t (min p x)) (min_le_right p x)
      · exact ih (min p a) x (List.mem_cons.2 (Or.inr hx''))

/-- A max-fold dominates its initial value. -/
theorem le_foldl_max_init : ∀ (t : List ℚ) (i : ℚ), i ≤ t.foldl max i := by
  intro t
  induction t with
  | nil => intro i; simp
  | cons a t ih => intro i; exact le_trans (le_max_left i a) (ih (max i a))

/-- A max-fold dominates every element of the full list. -/
theorem le_foldl_max_mem : ∀ (ps : List ℚ) (p x : ℚ), x ∈ p :: ps → x ≤ ps.foldl max p := by
  intro ps
  induction ps with
  | nil =>
    intro p x hx
    rcases List.mem_cons.1 hx with rfl | hx'
    · simp
    · simp at hx'
  | cons a t ih =>
    intro p x hx
    rcases List.mem_cons.1 hx with rfl | hx'
    · exact le_trans (le_max_left x a) (le_foldl_max_init t (max x a))
    · rcases List.mem_cons.1 hx' with rfl | hx''
      · exact le_trans (le_max_right p x) (le_foldl_max_init t (max p x))
      · exact ih (max p a) x (List.mem_cons.2 (Or.inr hx''))

/-- A min-fold of non-negative values is non-negative. -/
theorem foldl_min_nonneg : ∀ (ps : List ℚ) (p : ℚ), 0 ≤ p → (∀ x ∈ ps, 0 ≤ x) →
    0 ≤ ps.foldl min p := by
  intro ps
  induction ps with
  | nil => intro p hp _; simpa using hp
  | cons a t ih =>
    intro p hp h
    exact ih (min p a) (le_min hp (h a (List.mem_cons_self a t))) fun x hx =>
      h x (List.mem_cons_of_mem a hx)

/-- The mean lies between the min-fold and the max-fold. -/
theorem mean_bounds (p : ℚ) (ps : List ℚ) :
    ps.foldl min p ≤ (p :: ps).sum / (((p :: ps).length : ℕ) : ℚ) ∧
    (p :: ps).sum / (((p :: ps).length : ℕ) : ℚ) ≤ ps.foldl max p := by
  have hlen : (0:ℚ) < (((p :: ps).length : ℕ) : ℚ) := by
    have : 0 < (p :: ps).length := Nat.succ_pos _
    exact_mod_cast this
  constructor
  · rw [le_div_iff₀ hlen]
    have h := List.card_nsmul_le_sum (p :: ps) (ps.foldl min p) (foldl_min_le_mem ps p)
    rw [nsmul_eq_mul] at h
    linarith
  · rw [div_le_iff₀ hlen]
    have h := List.sum_le_card_nsmul (p :: ps) (ps.foldl max p) (le_foldl_max_mem ps p)
    rw [nsmul_eq_mul] at h
    linarith

/-- Claim C10: whenever the analyzer returns numeric results, the rounded
fields satisfy `0 ≤ Min Price ≤ Mean Price ≤ Max Price` — the regex only
matches unsigned decimal literals, and 2-decimal rounding is monotone. -/
theorem claim_C10_order_invariant (docs : List (List Char)) (p : ℚ) (ps : List ℚ)
    (h : allPrices docs = p :: ps) :
    ∃ s, analyze_documents docs = AnalyzeResult.stats s ∧
      0 ≤ s.minPrice ∧ s.minPrice ≤ s.meanPrice ∧ s.meanPrice ≤ s.maxPrice := by
  have hnn : ∀ x ∈ p :: ps, (0:ℚ) ≤ x := by
    rw [← h]
    exact fun x hx => allPrices_nonneg docs x hx
  unfold analyze_documents
  rw [h]
  refine ⟨_, rfl, ?_, ?_, ?_⟩
  · exact round2_nonneg (foldl_min_nonneg ps p (hnn p (List.mem_cons_self p ps))
      fun x hx => hnn x (List.mem_cons_of_mem p hx))
  · exact round2_mono (mean_bounds p ps).1
  · exact round2_mono (mean_bounds p ps).2

/-- Witness for C10 on a document pooling `[100, 20]`. -/
theorem claim_C10_witness :
    allPrices [docPrices] = [100, 20] ∧
    (∃ s, analyze_documents [docPrices] = AnalyzeResult.stats s ∧
      0 ≤ s.minPrice ∧ s.minPrice ≤ s.meanPrice ∧ s.meanPrice ≤ s.maxPrice) := by
  refine ⟨by decide, ?_⟩
  exact claim_C10_order_invariant [docPrices] 100 [20] (by decide)

/-! ### Integer square root and the rounded standard deviation -/

theorem isqrtGo_correct (n : ℕ) : ∀ (fuel lo hi : ℕ), lo * lo ≤ n → n < hi * hi → lo < hi →
    hi ≤ lo + 2 ^ fuel →
    (isqrtGo n fuel lo hi) * (isqrtGo n fuel lo hi) ≤ n ∧
      n < (isqrtGo n fuel lo hi + 1) * (isqrtGo n fuel lo hi + 1) := by
  intro fuel
  induction fuel with
  | zero =>
    intro lo hi h1 h2 h3 h4
    simp only [isqrtGo]
    have hhi : hi = lo + 1 := by omega
    exact ⟨h1, by rw [← hhi]; exact h2⟩
  | succ f ih =>
    intro lo hi h1 h2 h3 h4
    have hpow : 2 ^ (f + 1) = 2 * 2 ^ f := by rw [pow_succ]; ring
    simp only [isqrtGo]
    by_cases hmid : (lo + hi) / 2 = lo
    · rw [if_pos hmid]
      have hhi : hi = lo + 1 := by omega
      exact ⟨h1, by rw [← hhi]; exact h2⟩
    · rw [if_neg hmid]
      have hlo : lo < (lo + hi) / 2 := by omega
      have hhi : (lo + hi) / 2 < hi := by omega
      by_cases hsq : ((lo + hi) / 2) * ((lo + hi) / 2) ≤ n
      · rw [if_pos hsq]
        exact ih ((lo + hi) / 2) hi hsq h2 hhi (by omega)
      · rw [if_neg hsq]
        exact ih lo ((lo + hi) / 2) h1 (by omega) hlo (by omega)

theorem isqrtUp_correct (n : ℕ) :
    (isqrtUp n) * (isqrtUp n) ≤ n ∧ n < (isqrtUp n + 1) * (isqrtUp n + 1) := by
  unfold isqrtUp
  rcases Nat.eq_zero_or_pos n with rfl | hpos
  · simp [isqrtGo]
  · refine isqrtGo_correct n n 0 (n + 1) (by simp) (by nlinarith) (by omega) ?_
    have := Nat.lt_two_pow n
    omega

theorem isqrtUp_real_le (n : ℕ) : (isqrtUp n : ℝ) ≤ Real.sqrt n := by
  obtain ⟨h1, _⟩ := isqrtUp_correct n
  refine Real.le_sqrt_of_sq_le ?_
  have h1R : ((isqrtUp n : ℕ) : ℝ) * ((isqrtUp n : ℕ) : ℝ) ≤ (n : ℝ) := by exact_mod_cast h1
  nlinarith [h1R]

theorem isqrtUp_real_lt (n : ℕ) : Real.sqrt n < (isqrtUp n : ℝ) + 1 := by
  obtain ⟨_, h2⟩ := isqrtUp_correct n
  rw [Real.sqrt_lt' (by positivity)]
  have : ((n : ℕ) : ℝ) < (((isqrtUp n + 1) * (isqrtUp n + 1) : ℕ) : ℝ) := by exact_mod_cast h2
  push_cast at this
  nlinarith [this]

/-- `100·√(a/b) = √(10000·a·b)/b` for `0 < b`. -/
theorem sqrt_scaled (a b : ℕ) (hb : 0 < b) :
    100 * Real.sqrt ((a:ℝ)/(b:ℝ)) = Real.sqrt ((10000 * a * b : ℕ) : ℝ) / (b:ℝ) := by
  have hb0 : (0:ℝ) < (b:ℝ) := by exact_mod_cast hb
  have hm' : ((10000 * a * b : ℕ) : ℝ) = (100 * (b:ℝ))^2 * ((a:ℝ)/(b:ℝ)) := by
    push_cast
    field_simp
    ring
  rw [hm', Real.sqrt_mul (by positivity), Real.sqrt_sq (by positivity)]
  field_simp
  ring

/-- The scaled square root lies in `[f, f+1)` for `f` the integer part. -/
theorem floorf_bounds (a b : ℕ) (hb : 0 < b) :
    ((isqrtUp (10000 * a * b) / b : ℕ) : ℝ) ≤ Real.sqrt ((10000 * a * b : ℕ) : ℝ) / (b:ℝ) ∧
    Real.sqrt ((10000 * a * b : ℕ) : ℝ) / (b:ℝ) < ((isqrtUp (10000 * a * b) / b : ℕ) : ℝ) + 1 := by
  have hb0 : (0:ℝ) < (b:ℝ) := by exact_mod_cast hb
  constructor
  · rw [le_div_iff₀ hb0]
    calc ((isqrtUp (10000 * a * b) / b : ℕ) : ℝ) * b
        ≤ ((isqrtUp (10000 * a * b) : ℕ) : ℝ) := by
          exact_mod_cast Nat.div_mul_le_self (isqrtUp (10000 * a * b)) b
      _ ≤ Real.sqrt ((10000 * a * b : ℕ) : ℝ) := isqrtUp_real_le _
  · rw [div_lt_iff₀ hb0]
    have hlt : isqrtUp (10000 * a * b) < (isqrtUp (10000 * a * b) / b + 1) * b := by
      have hdm := Nat.div_add_mod (isqrtUp (10000 * a * b)) b
      have hmod := Nat.mod_lt (isqrtUp (10000 * a * b)) hb
      nlinarith [hdm, hmod]
    calc Real.sqrt ((10000 * a * b : ℕ) : ℝ)
        < ((isqrtUp (10000 * a * b) : ℕ) : ℝ) + 1 := isqrtUp_real_lt _
      _ ≤ (((isqrtUp (10000 * a * b) / b + 1) * b : ℕ) : ℝ) := by exact_mod_cast hlt
      _ = (((isqrtUp (10000 * a * b) / b : ℕ) : ℝ) + 1) * b := by push_cast; ring

/-- Condition `40000a < (2f+1)²b` places the scaled root below `f + 1/2`. -/
theorem cond_lt_half (a b f : ℕ) (hb : 0 < b) (h : 40000 * a < (2*f+1)^2 * b) :
    Real.sqrt ((10000 * a * b : ℕ) : ℝ) / (b:ℝ) < (f:ℝ) + 1/2 := by
  have hb0 : (0:ℝ) < (b:ℝ) := by exact_mod_cast hb
  rw [div_lt_iff₀ hb0]
  have hn : 4 * (10000 * a * b) < (2*f+1)^2 * b^2 := by
    calc 4 * (10000 * a * b) = (40000 * a) * b := by ring
    _ < ((2*f+1)^2 * b) * b := (Nat.mul_lt_mul_right hb).2 h
    _ = (2*f+1)^2 * b^2 := by ring
  have hnR : ((4 * (10000 * a * b) : ℕ) : ℝ) < (((2*f+1)^2 * b^2 : ℕ) : ℝ) := by
    exact_mod_cast hn
  have hlt : Real.sqrt ((10000 * a * b : ℕ) : ℝ) < (((f:ℝ) + 1/2)) * b := by
    rw [Real.sqrt_lt' (by positivity)]
    push_cast at hnR ⊢
    nlinarith [hnR]
  exact hlt

/-- Condition `40000a = (2f+1)²b` places the scaled root at `f + 1/2`. -/
theorem cond_eq_half (a b f : ℕ) (hb : 0 < b) (h : 40000 * a = (2*f+1)^2 * b) :
    Real.sqrt ((10000 * a * b : ℕ) : ℝ) / (b:ℝ) = (f:ℝ) + 1/2 := by
  have hb0 : (0:ℝ) < (b:ℝ) := by exact_mod_cast hb
  have hn : 4 * (10000 * a * b) = (2*f+1)^2 * b^2 := by
    calc 4 * (10000 * a * b) = (40000 * a) * b := by ring
    _ = ((2*f+1)^2 * b) * b := by rw [h]
    _ = (2*f+1)^2 * b^2 := by ring
  have hnR : ((4 * (10000 * a * b) : ℕ) : ℝ) = (((2*f+1)^2 * b^2 : ℕ) : ℝ) := by
    exact_mod_cast hn
  have hmr : ((10000 * a * b : ℕ) : ℝ) = (((f:ℝ) + 1/2) * b)^2 := by
    push_cast at hnR ⊢
    nlinarith [hnR]
  rw [hmr, Real.sqrt_sq (by positivity)]
  field_simp
  ring

/-- Condition `(2f+1)²b < 40000a` places the scaled root above `f + 1/2`. -/
theorem cond_gt_half (a b f : ℕ) (hb : 0 < b) (h : (2*f+1)^2 * b < 40000 * a) :
    (f:ℝ) + 1/2 < Real.sqrt ((10000 * a * b : ℕ) : ℝ) / (b:ℝ) := by
  have hb0 : (0:ℝ) < (b:ℝ) := by exact_mod_cast hb
  rw [lt_div_iff₀ hb0]
  have hn : (2*f+1)^2 * b^2 < 4 * (10000 * a * b) := by
    calc (2*f+1)^2 * b^2 = ((2*f+1)^2 * b) * b := by ring
    _ < (40000 * a) * b := (Nat.mul_lt_mul_right hb).2 h
    _ = 4 * (10000 * a * b) := by ring
  have hnR : (((2*f+1)^2 * b^2 : ℕ) : ℝ) < ((4 * (10000 * a * b) : ℕ) : ℝ) := by
    exact_mod_cast hn
  have hYnn : (0:ℝ) ≤ ((f:ℝ) + 1/2) * b := by positivity
  rw [show ((f:ℝ) + 1/2) * b = Real.sqrt ((((f:ℝ) + 1/2) * b)^2) from (Real.sqrt_sq hYnn).symm]
  apply Real.sqrt_lt_sqrt (by positivity)
  push_cast at hnR ⊢
  nlinarith [hnR]

/-- `rheSqrt100 v` is within `1/2` of `100·√v`. -/
theorem rheSqrt100_approx (v : ℚ) (hv : 0 ≤ v) :
    |((rheSqrt100 v : ℤ) : ℝ) - 100 * Real.sqrt ((v : ℝ))| ≤ 1/2 := by
  have hbpos : 0 < v.den := v.pos
  have hva : (v : ℝ) = (v.num.toNat : ℝ) / (v.den : ℝ) := by
    rw [Rat.cast_def]
    congr 1
    have h1 : (v.num.toNat : ℤ) = v.num := Int.toNat_of_nonneg (Rat.num_nonneg.mpr hv)
    exact_mod_cast h1.symm
  have hscale := sqrt_scaled v.num.toNat v.den hbpos
  obtain ⟨hf1, hf2⟩ := floorf_bounds v.num.toNat v.den hbpos
  simp only [rheSqrt100]
  rw [hva, hscale]
  split_ifs with h1 h2 h3
  · have := cond_lt_half v.num.toNat v.den _ hbpos h1
    simp only [Int.cast_natCast, Int.cast_add, Int.cast_one]
    rw [abs_le]
    constructor <;> linarith
  · have := cond_eq_half v.num.toNat v.den _ hbpos h2
    simp only [Int.cast_natCast, Int.cast_add, Int.cast_one]
    rw [abs_le]
    constructor <;> linarith
  · have := cond_eq_half v.num.toNat v.den _ hbpos h2
    simp only [Int.cast_natCast, Int.cast_add, Int.cast_one]
    rw [abs_le]
    constructor <;> linarith
  · have hgt : (2 * (isqrtUp (10000 * v.num.toNat * v.den) / v.den) + 1)^2 * v.den
        < 40000 * v.num.toNat :=
      lt_of_le_of_ne (Nat.le_of_not_lt h1) fun he => h2 he.symm
    have := cond_gt_half v.num.toNat v.den _ hbpos hgt
    simp only [Int.cast_natCast, Int.cast_add, Int.cast_one]
    rw [abs_le]
    constructor <;> linarith

/-- `round(sqrt v, 2)` lands within `1/200` of the true square root. -/
theorem round2sqrt_approx (v : ℚ) (hv : 0 ≤ v) :
    |((round2sqrt v : ℚ) : ℝ) - Real.sqrt ((v : ℚ) : ℝ)| ≤ 1/200 := by
  unfold round2sqrt
  have h := rheSqrt100_approx v hv
  rw [abs_le] at h ⊢
  obtain ⟨hl, hr⟩ := h
  push_cast
  constructor <;> linarith

/-- A rounded standard deviation times 100 is an integer. -/
theorem round2sqrt_den (v : ℚ) : (round2sqrt v * 100).den = 1 := by
  unfold round2sqrt
  rw [div_mul_cancel₀ _ (by norm_num : (100:ℚ) ≠ 0)]
  exact Rat.den_intCast _

/-- The sample variance of at least two numbers is non-negative. -/
theorem sampleVar_nonneg (xs : List ℚ) (h : 2 ≤ xs.length) : 0 ≤ sampleVar xs := by
  unfold sampleVar
  apply div_nonneg
  · apply List.sum_nonneg
    intro x hx
    obtain ⟨y, _, rfl⟩ := List.mem_map.1 hx
    exact sq_nonneg _
  · have h' : (2:ℚ) ≤ (xs.length : ℚ) := by exact_mod_cast h
    linarith

/-! ## Claim C5 — the statistical analyzer (corrected) -/

/-- Claim C5 (amended): on a non-empty pool the analyzer returns mean, max
and min rounded to 2 decimals, and volatility equal to the sample standard
deviation *rounded to 2 decimals* when the pool has more than one element
(0 otherwise); risk is tiered on this rounded volatility (< 20 low, < 50
medium, else high); trend is bullish iff the last pooled number strictly
exceeds the first; the signal is buy exactly for a bullish trend. -/
theorem claim_C5_amended (docs : List (List Char)) (p : ℚ) (ps : List ℚ)
    (h : allPrices docs = p :: ps) :
    ∃ s, analyze_documents docs = AnalyzeResult.stats s ∧
      |s.meanPrice - (p :: ps).sum / ((p :: ps).length : ℚ)| ≤ 1/200 ∧
      (s.meanPrice * 100).den = 1 ∧
      |s.maxPrice - ps.foldl max p| ≤ 1/200 ∧ (s.maxPrice * 100).den = 1 ∧
      |s.minPrice - ps.foldl min p| ≤ 1/200 ∧ (s.minPrice * 100).den = 1 ∧
      (ps = [] → s.volatility = 0) ∧
      (ps ≠ [] →
        |((s.volatility : ℚ) : ℝ) - Real.sqrt ((sampleVar (p :: ps) : ℚ) : ℝ)| ≤ 1/200 ∧
        (s.volatility * 100).den = 1) ∧
      (s.riskLevel = lowRiskLbl ↔ s.volatility < 20) ∧
      (s.riskLevel = medRiskLbl ↔ 20 ≤ s.volatility ∧ s.volatility < 50) ∧
      (s.riskLevel = highRiskLbl ↔ 50 ≤ s.volatility) ∧
      (s.trend = bullishLbl ↔ p < (p :: ps).getLast (List.cons_ne_nil p ps)) ∧
      (s.trend = bearishLbl ↔ ¬ p < (p :: ps).getLast (List.cons_ne_nil p ps)) ∧
      (s.tradingSignal = buyLbl ↔ s.trend = bullishLbl) ∧
      (s.tradingSignal = sellLbl ↔ ¬ s.trend = bullishLbl) := by
  set V : ℚ := if 1 < (p :: ps).length then round2sqrt (sampleVar (p :: ps)) else 0 with hV
  set R : String := if V < 20 then lowRiskLbl else if V < 50 then medRiskLbl else highRiskLbl
    with hR
  set T : String := if p < (p :: ps).getLast (List.cons_ne_nil p ps) then bullishLbl
    else bearishLbl with hT
  set G : String := if containsSub T.toList bullishWord.toList then buyLbl else sellLbl with hG
  have hvol0 : ps = [] → V = 0 := by
    rintro rfl
    rw [hV]
    norm_num
  have hvol1 : ps ≠ [] →
      |((V : ℚ) : ℝ) - Real.sqrt ((sampleVar (p :: ps) : ℚ) : ℝ)| ≤ 1/200 ∧
      (V * 100).den = 1 := by
    intro hne
    have hlen : 1 < (p :: ps).length := by
      cases ps with
      | nil => exact absurd rfl hne
      | cons a t => simp
    rw [hV, if_pos hlen]
    exact ⟨round2sqrt_approx _ (sampleVar_nonneg _ hlen), round2sqrt_den _⟩
  have hrisk_low : R = lowRiskLbl ↔ V < 20 := by
    rw [hR]
    by_cases h20 : V < 20
    · rw [if_pos h20]
      exact iff_of_true rfl h20
    · rw [if_neg h20]
      by_cases h50 : V < 50
      · rw [if_pos h50]
        exact iff_of_false (by decide) h20
      · rw [if_neg h50]
        exact iff_of_false (by decide) h20
  have hrisk_med : R = medRiskLbl ↔ 20 ≤ V ∧ V < 50 := by
    rw [hR]
    by_cases h20 : V < 20
    · rw [if_pos h20]
      exact iff_of_false (by decide) fun hc => absurd h20 (not_lt.2 hc.1)
    · rw [if_neg h20]
      by_cases h50 : V < 50
      · rw [if_pos h50]
        exact iff_of_true rfl ⟨not_lt.1 h20, h50⟩
      · rw [if_neg h50]
        exact iff_of_false (by decide) fun hc => absurd hc.2 h50
  have hrisk_high : R = highRiskLbl ↔ 50 ≤ V := by
    rw [hR]
    by_cases h20 : V < 20
    · rw [if_pos h20]
      exact iff_of_false (by decide) (by intro hge; linarith)
    · rw [if_neg h20]
      by_cases h50 : V < 50
      · rw [if_pos h50]
        exact iff_of_false (by decide) (by intro hge; linarith)
      · rw [if_neg h50]
        exact iff_of_true rfl (not_lt.1 h50)
  have htrend_bull : T = bullishLbl ↔ p < (p :: ps).getLast (List.cons_ne_nil p ps) := by
    rw [hT]
    by_cases ht : p < (p :: ps).getLast (List.cons_ne_nil p ps)
    · rw [if_pos ht]
      exact iff_of_true rfl ht
    · rw [if_neg ht]
      exact iff_of_false (by decide) ht
  have htrend_bear : T = bearishLbl ↔ ¬ p < (p :: ps).getLast (List.cons_ne_nil p ps) := by
    rw [hT]
    by_cases ht : p < (p :: ps).getLast (List.cons_ne_nil p ps)
    · rw [if_pos ht]
      exact iff_of_false (by decide) (by simpa using ht)
    · rw [if_neg ht]
      exact iff_of_true rfl ht
  have hsig_buy : G = buyLbl ↔ T = bullishLbl := by
    by_cases ht : p < (p :: ps).getLast (List.cons_ne_nil p ps)
    · have hTv : T = bullishLbl := by rw [hT, if_pos ht]
      have hGv : G = buyLbl := by
        rw [hG, hTv, if_pos (by decide : containsSub bullishLbl.toList bullishWord.toList = true)]
      rw [hGv, hTv]
      exact iff_of_true rfl rfl
    · have hTv : T = bearishLbl := by rw [hT, if_neg ht]
      have hGv : G = sellLbl := by
        rw [hG, hTv,
          if_neg (by decide : ¬ containsSub bearishLbl.toList bullishWord.toList = true)]
      rw [hGv, hTv]
      exact iff_of_false (by decide) (by decide)
  have hsig_sell : G = sellLbl ↔ ¬ T = bullishLbl := by
    by_cases ht : p < (p :: ps).getLast (List.cons_ne_nil p ps)
    · have hTv : T = bullishLbl := by rw [hT, if_pos ht]
      have hGv : G = buyLbl := by
        rw [hG, hTv, if_pos (by decide : containsSub bullishLbl.toList bullishWord.toList = true)]
      rw [hGv, hTv]
      exact iff_of_false (by decide) (by simp)
    · have hTv : T = bearishLbl := by rw [hT, if_neg ht]
      have hGv : G = sellLbl := by
        rw [hG, hTv,
          if_neg (by decide : ¬ containsSub bearishLbl.toList bullishWord.toList = true)]
      rw [hGv, hTv]
      exact iff_of_true rfl (by decide)
  have heq : analyze_documents docs = AnalyzeResult.stats
      ⟨round2 ((p :: ps).sum / ((p :: ps).length : ℚ)), round2 (ps.foldl max p),
        round2 (ps.foldl min p), V, R, T, G⟩ := by
    unfold analyze_documents
    rw [h]
  exact ⟨_, heq, round2_abs _, round2_den _, round2_abs _, round2_den _, round2_abs _,
    round2_den _, hvol0, hvol1, hrisk_low, hrisk_med, hrisk_high, htrend_bull, htrend_bear,
    hsig_buy, hsig_sell⟩

/-- Witness for the amended C5 on the pool `[0, 1]`. -/
theorem claim_C5_witness :
    allPrices [doc01] = [0, 1] ∧
    (∃ s, analyze_documents [doc01] = AnalyzeResult.stats s ∧
      (s.riskLevel = lowRiskLbl ↔ s.volatility < 20) ∧
      (s.tradingSignal = buyLbl ↔ s.trend = bullishLbl)) := by
  refine ⟨by decide, ?_⟩
  obtain ⟨s, heq, _, _, _, _, _, _, _, _, hlow, _, _, _, _, hbuy, _⟩ :=
    claim_C5_amended [doc01] 0 [1] (by decide)
  exact ⟨s, heq, hlow, hbuy⟩

unseal Rat.mul Rat.inv Rat.add Rat.sub in
/-- Counterexample to C5 as stated: for the pooled numbers `[0, 1]` the
returned volatility is `0.71`, which is not the sample standard deviation
`√(1/2)` — the code rounds the standard deviation to 2 decimals before
returning and classifying it. -/
theorem claim_C5_counterexample :
    allPrices [doc01] = [0, 1] ∧
    analysisVol (analyze_documents [doc01]) = some (mkRat 71 100) ∧
    sampleVar [0, 1] = mkRat 1 2 ∧
    ((mkRat 71 100 : ℚ) : ℝ) ≠ Real.sqrt ((mkRat 1 2 : ℚ) : ℝ) := by
  refine ⟨by decide, by decide, by decide, ?_⟩
  intro hc
  have h1 : (mkRat 71 100 : ℚ) = 71/100 := by rw [Rat.mkRat_eq_div]; norm_num
  have h2 : (mkRat 1 2 : ℚ) = 1/2 := by rw [Rat.mkRat_eq_div]; norm_num
  rw [h1, h2] at hc
  have hsq := congrArg (fun t => t ^ 2) hc
  simp only at hsq
  rw [Real.sq_sqrt (by norm_num : (0:ℝ) ≤ ((1/2 : ℚ) : ℝ))] at hsq
  push_cast at hsq
  norm_num at hsq

/-! ## Claim C6 — the end-to-end scenario (corrected) -/

unseal Rat.mul Rat.inv Rat.add Rat.sub in
/-- Counterexample to C6 as stated: on the scenario document the number
regex pools `[50, 2, 221, 50.35]`, not `[50, 22150.35]` — `\d{1,3}` with
comma-grouped thousands splits the comma-free `22150` — and the mean is
`80.84`, not `≈ 11100.18`. -/
theorem claim_C6_counterexample :
    allPrices [docC6] = [50, 2, 221, mkRat 5035 100] ∧
    ([50, 2, 221, mkRat 5035 100] : List ℚ) ≠ [50, mkRat 2215035 100] ∧
    analysisMean (analyze_documents [docC6]) = some (mkRat 8084 100) ∧
    (mkRat 8084 100 : ℚ) ≠ mkRat 1110018 100 := by
  refine ⟨by decide, by decide, by decide, by decide⟩

unseal Rat.mul Rat.inv Rat.add Rat.sub Rat.ofScientific in
/-- Claim C6 (amended): for the query "What is the current market trend?"
and one retrieved document at distance 0.5 with the scenario text, the
filtered set keeps the single entry, its relevance is 75.0, fact
extraction yields the full sentence, and the analyzer pools
`[50, 2, 221, 50.35]`, giving mean 80.84 and a bullish trend. -/
theorem claim_C6_amended :
    search_documents [docC6] [metaNone] [mkRat 1 2] = ([docC6], [metaNone], [mkRat 1 2]) ∧
    relevancePct (mkRat 1 2) = 75 ∧
    topFacts qC6 [docC6] = [docC6] ∧
    finalFacts qC6 [docC6] = [docC6] ∧
    allPrices [docC6] = [50, 2, 221, mkRat 5035 100] ∧
    analysisMean (analyze_documents [docC6]) = some (mkRat 8084 100) ∧
    analysisTrend (analyze_documents [docC6]) = some bullishLbl := by
  refine ⟨by decide, by decide, by decide, by decide, by decide, by decide, by decide⟩
